import Mathlib

set_option maxRecDepth 4000

/-!
Verification of the todo-attack task-line parsing and board writeback logic.

The source is a browser editor over a plain-text task-list dialect.  The
functions embedded here are the pure text-level core of the Monaco variant
(parseTasks, updateTaskStatusAtLine, toggleTaskStatus, addTodaysDate,
updateTaskDatesAtLine) and the Ace variant of toggleTaskStatus/addTodaysDate
from app.js.  Lines are modelled as lists of characters and a document as a
list of lines, exactly the view that the editor model (getLinesContent /
getLineContent / per-line pushEditOperations) exposes to this code.

The JavaScript regexes are embedded as deterministic maximal-munch scanners;
each definition carries the regex it implements.  The JS character class \s
also admits some Unicode space characters; it is restricted here to ASCII
whitespace, which is the range the claims and the documents exercise.
-/

namespace TodoAttack

/-- A line of text: the unit the editor model hands to the parsing code. -/
abbrev Line := List Char

/-- ASCII fragment of the JS regex class \s. -/
def isWs (c : Char) : Bool :=
  c == ' ' || c == '\t' || c == '\n' || c == '\r' || c == '\u000b' || c == '\u000c'

/-- The bullet class [-*+] of the task regex. -/
def isBullet (c : Char) : Bool := c == '-' || c == '*' || c == '+'

/-- The status-character class [ x/] of the task regex. -/
def isStatusChar (c : Char) : Bool := c == ' ' || c == 'x' || c == '/'

/-- The JS word class \w = [A-Za-z0-9_]. -/
def isWordCh (c : Char) : Bool := c.isAlpha || c.isDigit || c == '_'

/-- The hex-digit class [0-9A-Fa-f]. -/
def isHexDigit (c : Char) : Bool :=
  c.isDigit || ('A' ≤ c && c ≤ 'F') || ('a' ≤ c && c ≤ 'f')

/-- The capture groups of the task regex
^(\s*)[-*+]\s*\[([ x/])\]\s*(.*)$ together with the uncaptured
bullet and whitespace runs, so that the matched line can be rebuilt. -/
structure TaskParts where
  ind : Line
  bullet : Char
  ws2 : Line
  statusCh : Char
  ws3 : Line
  body : Line
deriving DecidableEq, Repr

/-- Rebuild the line a TaskParts value was split from. -/
def TaskParts.line (p : TaskParts) : Line :=
  p.ind ++ p.bullet :: p.ws2 ++ '[' :: p.statusCh :: ']' :: p.ws3 ++ p.body

/-- Matcher for the task regex ^(\s*)[-*+]\s*\[([ x/])\]\s*(.*)$ used by
parseTasks (src/unnamed/part_000, line 920).  Greedy \s* runs followed by a
mandatory non-whitespace character are maximal-munch, so the scanner below is
exactly the regex. -/
def taskSplit (l : Line) : Option TaskParts :=
  match l.dropWhile isWs with
  | [] => none
  | b :: r2 =>
    if isBullet b then
      match r2.dropWhile isWs with
      | lb :: c :: rb :: r4 =>
        if lb = '[' ∧ rb = ']' ∧ isStatusChar c then
          some ⟨l.takeWhile isWs, b, r2.takeWhile isWs, c,
                r4.takeWhile isWs, r4.dropWhile isWs⟩
        else none
      | _ => none
    else none

/-- The trailing color alternative (?:\s+(#[0-9A-Fa-f]{6}))?\s*$ of the
heading regex, tried at one split point of the lazy title group: a
non-empty whitespace run, then # and exactly six hex digits, then only
whitespace to the end of the line.  Returns the captured color. -/
def colorSuffix (t : Line) : Option Line :=
  match t.dropWhile isWs with
  | '#' :: rest =>
    if (t.takeWhile isWs) ≠ [] ∧ (rest.take 6).length = 6
        ∧ (rest.take 6).all isHexDigit ∧ (rest.drop 6).all isWs then
      some ('#' :: rest.take 6)
    else none
  | _ => none

/-- The lazy title group (.*?) of the heading regex: grow the title from the
shortest prefix, at each split preferring the color alternative (the optional
group is greedy) and otherwise accepting a whitespace-only tail. -/
def findTitle (acc : Line) (s : Line) : Line × Option Line :=
  match colorSuffix s with
  | some col => (acc.reverse, some col)
  | none =>
    if s.all isWs then (acc.reverse, none)
    else
      match s with
      | [] => (acc.reverse, none)
      | c :: cs => findTitle (c :: acc) cs

/-- Matcher for the heading regex ^(#{1,3})\s+(.*?)(?:\s+(#[0-9A-Fa-f]{6}))?\s*$
used by parseTasks (src/unnamed/part_000, line 914).  #{1,3} is maximal-munch
against the following \s+, so four or more leading # characters never match.
Returns (level, raw title group, optional color group). -/
def headMatch (l : Line) : Option (Nat × Line × Option Line) :=
  let k := (l.takeWhile (fun c => c == '#')).length
  if k = 0 ∨ 3 < k then none
  else
    let rest := l.drop k
    if rest.takeWhile isWs = [] then none
    else
      let tc := findTitle [] (rest.dropWhile isWs)
      some (k, tc.1, tc.2)

/-- JS String.prototype.trim restricted to ASCII whitespace. -/
def trimWs (l : Line) : Line :=
  ((l.dropWhile isWs).reverse.dropWhile isWs).reverse

/-- Fuelled scan for the global tag regex \+[\w-]+: at a + with a non-empty
following run of word or hyphen characters, take the match and resume after
it; otherwise advance one character.  The fuel only makes the recursion
structural; tagScan supplies enough for the whole line. -/
def tagScanF : Nat → Line → List Line
  | 0, _ => []
  | _, [] => []
  | fuel + 1, c :: cs =>
    if c = '+' then
      let w := cs.takeWhile (fun d => isWordCh d || d == '-')
      if w = [] then tagScanF fuel cs
      else ('+' :: w) :: tagScanF fuel (cs.drop w.length)
    else tagScanF fuel cs

/-- All matches of the global tag regex \+[\w-]+ in document order,
each kept with its leading + exactly as String.match returns them. -/
def tagScan (l : Line) : List Line := tagScanF l.length l

/-- The date pattern \d{4}-\d{2}-\d{2}. -/
def dateShape : Line → Bool
  | [a, b, c, d, e, f, g, h, i, j] =>
    a.isDigit && b.isDigit && c.isDigit && d.isDigit && e == '-'
      && f.isDigit && g.isDigit && h == '-' && i.isDigit && j.isDigit
  | _ => false

/-- Does fld followed by a date start here, with a word boundary after the
final digit?  Used for the patterns \bdue:\d{4}-\d{2}-\d{2}\b and
\bstart:\d{4}-\d{2}-\d{2}\b. -/
def datedFieldHere (fld l : Line) : Bool :=
  fld.isPrefixOf l && dateShape ((l.drop fld.length).take 10)
    && (match l.drop (fld.length + 10) with
        | [] => true
        | c :: _ => !isWordCh c)

/-- First match of \b fld \d{4}-\d{2}-\d{2}\b, scanning left to right and
tracking whether the previous character was a word character (the leading
word boundary; fld starts with a word character). -/
def datedFieldScan (fld : Line) : Bool → Line → Option Line
  | _, [] => none
  | prevWord, c :: cs =>
    if !prevWord && datedFieldHere fld (c :: cs) then
      some ((c :: cs).take (fld.length + 10))
    else datedFieldScan fld (isWordCh c) cs

/-- First match of the priority regex \(([abc])\), returning the capture. -/
def prioScanF : Nat → Line → Option Char
  | 0, _ => none
  | _, [] => none
  | fuel + 1, l =>
    match l with
    | '(' :: c :: ')' :: _ =>
      if c = 'a' ∨ c = 'b' ∨ c = 'c' then some c
      else prioScanF fuel l.tail
    | _ :: cs => prioScanF fuel cs
    | [] => none

/-- First match of the priority regex \(([abc])\), returning the capture.
The fuel only makes the recursion structural. -/
def prioScan (l : Line) : Option Char := prioScanF l.length l

/-- The status names parseTasks assigns to the three checkbox characters. -/
def statusName (c : Char) : Line :=
  if c = '/' then "inprogress".toList
  else if c = 'x' then "done".toList
  else "backlog".toList

/-- The default heading color '#1976D2'. -/
def defaultColor : Line := "#1976D2".toList

/-- One task record as built by parseTasks (src/unnamed/part_000, line 932).
The id field "ln-<n>" is omitted: it is a rendering of lineNumber. -/
structure TaskRec where
  lineNumber : Nat
  status : Line
  text : Line
  heading : Option Line
  color : Line
  tags : Line
  due : Option Line
  start : Option Line
  priority : Option Char
deriving DecidableEq, Repr

/-- Build the task record for a matched task line from the current fold
state, mirroring the object literal pushed by parseTasks. -/
def mkTask (n : Nat) (c : Char) (body : Line) (lastH : Option Line)
    (lastC : Line) : TaskRec :=
  { lineNumber := n
    status := statusName c
    text := body
    heading := lastH
    color := if lastC = [] then defaultColor else lastC
    tags := List.intercalate [' '] (tagScan body)
    due := datedFieldScan "due:".toList false body
    start := datedFieldScan "start:".toList false body
    priority := prioScan body }

/-- The scan loop of parseTasks: i is the 0-based index of the first line of
the remaining list, lastH and lastC the heading/color trackers. -/
def parseAux : List Line → Nat → Option Line → Line → List TaskRec
  | [], _, _, _ => []
  | line :: rest, i, lastH, lastC =>
    match headMatch line with
    | some (_, title, col) =>
      parseAux rest (i + 1) (some (trimWs title)) (col.getD lastC)
    | none =>
      match taskSplit line with
      | some p => mkTask (i + 1) p.statusCh p.body lastH lastC
          :: parseAux rest (i + 1) lastH lastC
      | none => parseAux rest (i + 1) lastH lastC

/-- parseTasks over the editor model's line list. -/
def parseTasks (ls : List Line) : List TaskRec :=
  parseAux ls 0 none defaultColor

/-- Split document text into the editor model's lines. -/
def splitLines (text : Line) : List Line :=
  match text with
  | [] => [[]]
  | '\n' :: cs => [] :: splitLines cs
  | c :: cs =>
    match splitLines cs with
    | l :: ls => (c :: l) :: ls
    | [] => [[c]]

/-- parseTasks applied to raw document text. -/
def parseDocument (text : Line) : List TaskRec :=
  parseTasks (splitLines text)

/-- The column-to-character map of updateTaskStatusAtLine:
mapped[targetStatus] with the JS fallback || ' '. -/
def charForStatus (s : Line) : Char :=
  if s = "backlog".toList then ' '
  else if s = "inprogress".toList then '/'
  else if s = "done".toList then 'x'
  else ' '

/-- line.replace(^(\s*[-*+]\s*\[)([ x/])(\]), p1 + ch + p3): rewrite the
bracket character of a matching line, leave a non-matching line alone. -/
def setStatusChar (l : Line) (ch : Char) : Line :=
  match taskSplit l with
  | some p => p.ind ++ p.bullet :: p.ws2 ++ '[' :: ch :: ']' :: p.ws3 ++ p.body
  | none => l

/-- updateTaskStatusAtLine (src/unnamed/part_000, line 973) on the editor
model's line list; lineNumber is 1-based.  The code reads the line, rewrites
the bracket character and pushes the new line over the old line range, which
the model realises as a point update. -/
def updateTaskStatusAtLine (ls : List Line) (lineNumber : Nat)
    (targetStatus : Line) : List Line :=
  match ls.get? (lineNumber - 1) with
  | none => ls
  | some line => ls.set (lineNumber - 1) (setStatusChar line (charForStatus targetStatus))

/-- The cycle of the toggle replacement callback:
' ' to '/', '/' to 'x', anything else to ' '. -/
def nextStatus (c : Char) : Char :=
  if c = ' ' then '/' else if c = '/' then 'x' else ' '

/-- toggleTaskStatus of the Monaco variant (src/unnamed/part_000, line 664):
line.replace(^(\s*-\s*\[)([ x/])(\]), cycle).  Only the '-' bullet is
recognised; any line the regex misses is returned unchanged. -/
def toggleTaskStatus (l : Line) : Line :=
  match taskSplit l with
  | some p =>
    if p.bullet = '-' then
      p.ind ++ p.bullet :: p.ws2 ++ '[' :: nextStatus p.statusCh :: ']' :: p.ws3 ++ p.body
    else l
  | none => l

/-- Matcher for ^(\s*)-\s*\[\s*\] (the pending branch of the Ace variant):
returns the indent group and the text after the matched part. -/
def aceBracketEmpty (l : Line) : Option (Line × Line) :=
  match l.dropWhile isWs with
  | '-' :: r2 =>
    match r2.dropWhile isWs with
    | '[' :: r3 =>
      match r3.dropWhile isWs with
      | ']' :: r4 => some (l.takeWhile isWs, r4)
      | _ => none
    | _ => none
  | _ => none

/-- Matcher for ^(\s*)-\s*\[ch\] (the in-progress and done branches of the
Ace variant): returns the indent group and the text after the matched part. -/
def aceBracketChar (ch : Char) (l : Line) : Option (Line × Line) :=
  match l.dropWhile isWs with
  | '-' :: r2 =>
    match r2.dropWhile isWs with
    | '[' :: c :: ']' :: r4 =>
      if c = ch then some (l.takeWhile isWs, r4) else none
    | _ => none
  | _ => none

/-- toggleTaskStatus of the Ace variant (src/app.js, line 141): three branch
regexes in order, and a fallback that rebuilds any other line as a fresh
pending task, reusing the content stripped of its indentation and of one
leading - with following whitespace (content.replace(^-\s*, '')). -/
def toggleTaskStatusAce (l : Line) : Line :=
  match aceBracketEmpty l with
  | some (ind, rest) => ind ++ '-' :: ' ' :: '[' :: '/' :: ']' :: rest
  | none =>
    match aceBracketChar '/' l with
    | some (ind, rest) => ind ++ '-' :: ' ' :: '[' :: 'x' :: ']' :: rest
    | none =>
      match aceBracketChar 'x' l with
      | some (ind, rest) => ind ++ '-' :: ' ' :: '[' :: ' ' :: ']' :: rest
      | none =>
        let content := l.dropWhile isWs
        let content2 := match content with
          | '-' :: cs => cs.dropWhile isWs
          | _ => content
        l.takeWhile isWs ++ '-' :: ' ' :: '[' :: ' ' :: ']' :: ' ' :: content2

/-- JS line.includes(pat). -/
def containsSub (l pat : Line) : Bool :=
  pat.isPrefixOf l ||
    match l with
    | [] => false
    | _ :: cs => containsSub cs pat

/-- A match of the replacement regex due:\d{4}-\d{2}-\d{2} (no word
boundaries) starting at the head of l. -/
def dueReplHere (l : Line) : Bool :=
  "due:".toList.isPrefixOf l && dateShape ((l.drop 4).take 10)

/-- line.replace(due:\d{4}-\d{2}-\d{2}, due:d): substitute the leftmost
match, return the line unchanged if there is none. -/
def replaceDue (d : Line) : Line → Line
  | [] => []
  | c :: cs =>
    if dueReplHere (c :: cs) then "due:".toList ++ d ++ (c :: cs).drop 14
    else c :: replaceDue d cs

/-- JS line.endsWith(' '): the last character is a space, specifically the
space character and not general whitespace. -/
def endsWithSpace (l : Line) : Bool :=
  match l.getLast? with
  | some c => c == ' '
  | none => false

/-- addTodaysDate (src/unnamed/part_000, line 695) as a line function with
the date as a parameter: if the line contains the substring due: anywhere,
replace the first due:date match (which can be a no-op when due: is present
but never followed by a date); otherwise append due:d, with a separating
space unless the line already ends in a space character.  The due branch of
updateTaskDatesAtLine (line 1291) and the Ace addTodaysDate replace branch
(src/app.js, line 179) use the same replacement regex. -/
def addTodaysDate (l d : Line) : Line :=
  if containsSub l "due:".toList then replaceDue d l
  else l ++ (if endsWithSpace l then [] else [' ']) ++ "due:".toList ++ d

/-- Number of occurrences of pat in s (count of start positions). -/
def countSub (pat : Line) : Line → Nat
  | [] => if pat.isPrefixOf [] then 1 else 0
  | c :: cs => (if pat.isPrefixOf (c :: cs) then 1 else 0) + countSub pat cs

/-- No match of the replacement regex due:\d{4}-\d{2}-\d{2} starts at any
position inside a, when the text continues with rest. -/
def noEarlierMatch : Line → Line → Bool
  | [], _ => true
  | c :: a, rest => !dueReplHere (c :: (a ++ rest)) && noEarlierMatch a rest

/-- Spec-side task grammar, for comparison with the code's matcher: optional
leading whitespace, one bullet from -, *, +, optional whitespace (the code's
\s*, not the single mandatory space of the spec grammar), then the bracketed
status character from space, x, /, then the rest of the line. -/
def SpecTaskLine (l : Line) : Prop :=
  ∃ ind b w2 c rest, ind.all isWs = true ∧ (b = '-' ∨ b = '*' ∨ b = '+')
    ∧ w2.all isWs = true ∧ (c = ' ' ∨ c = 'x' ∨ c = '/')
    ∧ l = ind ++ b :: w2 ++ '[' :: c :: ']' :: rest

section Helpers

lemma isBullet_elim {b : Char} (h : isBullet b = true) :
    b = '-' ∨ b = '*' ∨ b = '+' := by
  simpa [isBullet, or_assoc] using h

lemma isStatusChar_elim {c : Char} (h : isStatusChar c = true) :
    c = ' ' ∨ c = 'x' ∨ c = '/' := by
  simpa [isStatusChar, or_assoc] using h

lemma isBullet_not_ws {b : Char} (h : isBullet b = true) : isWs b = false := by
  rcases isBullet_elim h with rfl | rfl | rfl <;> rfl

lemma takeWhile_ws_append {w : Line} {x : Char} (r : Line)
    (hw : w.all isWs = true) (hx : isWs x = false) :
    (w ++ x :: r).takeWhile isWs = w := by
  induction w with
  | nil => simp [List.takeWhile_cons, hx]
  | cons a w ih =>
    simp only [List.all_cons, Bool.and_eq_true] at hw
    simp [List.takeWhile_cons, hw.1, ih hw.2]

lemma dropWhile_ws_append {w : Line} {x : Char} (r : Line)
    (hw : w.all isWs = true) (hx : isWs x = false) :
    (w ++ x :: r).dropWhile isWs = x :: r := by
  induction w with
  | nil => simp [List.dropWhile_cons, hx]
  | cons a w ih =>
    simp only [List.all_cons, Bool.and_eq_true] at hw
    simp [List.dropWhile_cons, hw.1, ih hw.2]

lemma all_ws_takeWhile (l : Line) : (l.takeWhile isWs).all isWs = true := by
  induction l with
  | nil => rfl
  | cons a l ih =>
    by_cases h : isWs a = true
    · simp [List.takeWhile_cons, h, ih]
    · simp [List.takeWhile_cons, Bool.eq_false_iff.mpr h]

/-- Soundness of the task matcher: a successful split rebuilds the line and
each component satisfies its character class. -/
lemma taskSplit_some {l : Line} {p : TaskParts} (h : taskSplit l = some p) :
    l = p.line ∧ p.ind.all isWs = true ∧ isBullet p.bullet = true
      ∧ p.ws2.all isWs = true ∧ isStatusChar p.statusCh = true
      ∧ p.ws3.all isWs = true := by
  unfold taskSplit at h
  split at h
  · exact absurd h (by simp)
  · rename_i b r2 hd
    split at h
    · rename_i hb
      split at h
      · rename_i lb c rb r4 hd2
        split at h
        · rename_i hcond
          obtain ⟨rfl, rfl, hc⟩ := hcond
          injection h with h'
          subst h'
          refine ⟨?_, all_ws_takeWhile l, hb, all_ws_takeWhile r2, hc, all_ws_takeWhile r4⟩
          have e1 : l.takeWhile isWs ++ l.dropWhile isWs = l :=
            List.takeWhile_append_dropWhile isWs l
          have e2 : r2.takeWhile isWs ++ r2.dropWhile isWs = r2 :=
            List.takeWhile_append_dropWhile isWs r2
          have e4 : r4.takeWhile isWs ++ r4.dropWhile isWs = r4 :=
            List.takeWhile_append_dropWhile isWs r4
          rw [hd] at e1
          rw [hd2] at e2
          simp only [TaskParts.line, List.cons_append, List.append_assoc]
          rw [e4, e2, e1]
        · exact absurd h (by simp)
      · exact absurd h (by simp)
    · exact absurd h (by simp)

/-- Completeness of the task matcher on a decomposed line. -/
lemma taskSplit_build {ind w2 : Line} {b c : Char} (rest : Line)
    (hi : ind.all isWs = true) (hb : isBullet b = true)
    (hw : w2.all isWs = true) (hc : isStatusChar c = true) :
    taskSplit (ind ++ b :: w2 ++ '[' :: c :: ']' :: rest)
      = some ⟨ind, b, w2, c, rest.takeWhile isWs, rest.dropWhile isWs⟩ := by
  have hb' := isBullet_not_ws hb
  have hlb : isWs '[' = false := rfl
  have h1 : (ind ++ b :: (w2 ++ '[' :: c :: ']' :: rest)).dropWhile isWs
      = b :: (w2 ++ '[' :: c :: ']' :: rest) := dropWhile_ws_append _ hi hb'
  have h2 : (ind ++ b :: (w2 ++ '[' :: c :: ']' :: rest)).takeWhile isWs
      = ind := takeWhile_ws_append _ hi hb'
  have h3 : (w2 ++ '[' :: c :: ']' :: rest).dropWhile isWs
      = '[' :: c :: ']' :: rest := dropWhile_ws_append _ hw hlb
  have h4 : (w2 ++ '[' :: c :: ']' :: rest).takeWhile isWs
      = w2 := takeWhile_ws_append _ hw hlb
  simp only [taskSplit, List.cons_append, List.append_assoc] at h1 h2 h3 h4 ⊢
  rw [h1]
  simp only [hb, if_true]
  rw [h3]
  simp [h2, h4, hc]

lemma headMatch_starts_hash {l : Line} {v : Nat × Line × Option Line}
    (h : headMatch l = some v) : ∃ l', l = '#' :: l' := by
  cases l with
  | nil => simp [headMatch] at h
  | cons a l' =>
    by_cases ha : a = '#'
    · exact ⟨l', by rw [ha]⟩
    · exfalso
      have hb : (a == '#') = false := beq_eq_false_iff_ne.mpr ha
      have h0 : (List.takeWhile (fun c => c == '#') (a :: l')).length = 0 := by
        simp [List.takeWhile_cons, hb]
      simp [headMatch, h0] at h

/-- A heading line is never a task line: headings start with a hash, which is
neither whitespace nor a bullet. -/
lemma headMatch_taskSplit_none {l : Line} {v : Nat × Line × Option Line}
    (h : headMatch l = some v) : taskSplit l = none := by
  obtain ⟨l', rfl⟩ := headMatch_starts_hash h
  have h1 : isWs '#' = false := rfl
  have h2 : isBullet '#' = false := rfl
  simp [taskSplit, List.dropWhile_cons, h1, h2]

/-- Every emitted task comes from a line that matches the task regex, carries
that line's 1-based number and inherits its status character and body. -/
lemma parseAux_mem {ls : List Line} {i : Nat} {lastH : Option Line}
    {lastC : Line} {t : TaskRec} (h : t ∈ parseAux ls i lastH lastC) :
    ∃ j line p, j < ls.length ∧ t.lineNumber = i + j + 1
      ∧ ls.get? j = some line ∧ taskSplit line = some p
      ∧ t.status = statusName p.statusCh ∧ t.text = p.body := by
  induction ls generalizing i lastH lastC with
  | nil => simp [parseAux] at h
  | cons line rest ih =>
    have step : ∀ lastH' lastC', t ∈ parseAux rest (i + 1) lastH' lastC' →
        ∃ j line' p, j < (line :: rest).length ∧ t.lineNumber = i + j + 1
          ∧ (line :: rest).get? j = some line' ∧ taskSplit line' = some p
          ∧ t.status = statusName p.statusCh ∧ t.text = p.body := by
      intro lastH' lastC' hmem
      obtain ⟨j, line', p, hj, hn, hg, hs, hst, htx⟩ := ih hmem
      exact ⟨j + 1, line', p, by simpa using Nat.succ_lt_succ hj,
        by omega, by simpa using hg, hs, hst, htx⟩
    cases hh : headMatch line with
    | some v =>
      obtain ⟨k, title, col⟩ := v
      rw [parseAux, hh] at h
      exact step _ _ h
    | none =>
      cases hts : taskSplit line with
      | none =>
        rw [parseAux, hh, hts] at h
        exact step _ _ h
      | some p =>
        rw [parseAux, hh, hts, List.mem_cons] at h
        rcases h with rfl | h
        · exact ⟨0, line, p, by simp, by simp [mkTask], by simp, hts, rfl, rfl⟩
        · exact step _ _ h

/-- Emitted tasks carry strictly increasing line numbers. -/
lemma parseAux_pairwise (ls : List Line) (i : Nat) (lastH : Option Line)
    (lastC : Line) :
    (parseAux ls i lastH lastC).Pairwise
      (fun a b => a.lineNumber < b.lineNumber) := by
  induction ls generalizing i lastH lastC with
  | nil => simp [parseAux]
  | cons line rest ih =>
    cases hh : headMatch line with
    | some v =>
      obtain ⟨k, title, col⟩ := v
      rw [parseAux, hh]
      exact ih ..
    | none =>
      cases hts : taskSplit line with
      | none =>
        rw [parseAux, hh, hts]
        exact ih ..
      | some p =>
        rw [parseAux, hh, hts]
        refine List.Pairwise.cons ?_ (ih ..)
        intro b hb
        obtain ⟨j, _, _, _, hn, _⟩ := parseAux_mem hb
        simp only [mkTask]
        omega

/-- Every line matching the task regex gives rise to an emitted task with
that line's 1-based number. -/
lemma parseAux_emit {ls : List Line} {j : Nat} {line : Line} {p : TaskParts}
    (hg : ls.get? j = some line) (hts : taskSplit line = some p)
    (i : Nat) (lastH : Option Line) (lastC : Line) :
    ∃ t, t ∈ parseAux ls i lastH lastC ∧ t.lineNumber = i + j + 1 := by
  induction ls generalizing i j lastH lastC with
  | nil => simp at hg
  | cons l0 rest ih =>
    cases j with
    | zero =>
      simp only [List.get?_cons_zero, Option.some.injEq] at hg
      subst hg
      have hh : headMatch l0 = none := by
        cases hh2 : headMatch l0 with
        | none => rfl
        | some v =>
          rw [headMatch_taskSplit_none hh2] at hts
          exact absurd hts (by simp)
      refine ⟨mkTask (i + 1) p.statusCh p.body lastH lastC, ?_, by simp [mkTask]⟩
      rw [parseAux, hh, hts]
      exact List.mem_cons_self _ _
    | succ j' =>
      simp only [List.get?_cons_succ] at hg
      cases hh : headMatch l0 with
      | some v =>
        obtain ⟨k, title, col⟩ := v
        obtain ⟨t, hmem, hn⟩ := ih hg (i + 1) (some (trimWs title)) (col.getD lastC)
        refine ⟨t, ?_, by omega⟩
        rw [parseAux, hh]
        exact hmem
      | none =>
        cases hts0 : taskSplit l0 with
        | none =>
          obtain ⟨t, hmem, hn⟩ := ih hg (i + 1) lastH lastC
          refine ⟨t, ?_, by omega⟩
          rw [parseAux, hh, hts0]
          exact hmem
        | some p0 =>
          obtain ⟨t, hmem, hn⟩ := ih hg (i + 1) lastH lastC
          refine ⟨t, ?_, by omega⟩
          rw [parseAux, hh, hts0]
          exact List.mem_cons_of_mem _ hmem

lemma set_get_self {α : Type} {l : List α} {n : Nat} {a : α}
    (h : l.get? n = some a) : l.set n a = l := by
  induction l generalizing n with
  | nil => simp at h
  | cons x xs ih =>
    cases n with
    | zero =>
      simp only [List.get?_cons_zero, Option.some.injEq] at h
      simp [h]
    | succ n =>
      simp only [List.get?_cons_succ] at h
      simp [ih h]

lemma due_toList : "due:".toList = ['d', 'u', 'e', ':'] := rfl

lemma isPrefixOf_eq_true {pat s : Line} (h : ¬ pat.isPrefixOf s = false) :
    pat.isPrefixOf s = true := by
  revert h
  cases pat.isPrefixOf s <;> simp

lemma isPrefixOf_false_of_lt {pat s : Line} (h : s.length < pat.length) :
    pat.isPrefixOf s = false := by
  by_contra hc
  have h2 := (List.isPrefixOf_iff_prefix.mp (isPrefixOf_eq_true hc)).length_le
  omega

lemma countSub_zero_of_lt {pat : Line} :
    ∀ {s : Line}, s.length < pat.length → countSub pat s = 0 := by
  intro s
  induction s with
  | nil =>
    intro h
    simp [countSub, isPrefixOf_false_of_lt h]
  | cons c cs ih =>
    intro h
    have h1 : (c :: cs).length < pat.length := h
    simp [countSub, isPrefixOf_false_of_lt h1,
      ih (by simp at h ⊢; omega)]

lemma countSub_pat_self {pat : Line} (h : pat ≠ []) : countSub pat pat = 1 := by
  cases pat with
  | nil => exact absurd rfl h
  | cons a as =>
    have h1 : (a :: as).isPrefixOf (a :: as) = true :=
      List.isPrefixOf_iff_prefix.mpr (List.prefix_refl _)
    have h2 : countSub (a :: as) as = 0 := countSub_zero_of_lt (by simp)
    simp [countSub, h1, h2]

/-- Occurrence counting over an append: when no occurrence of pat starts
inside l (given the continuation r), the count over l ++ r is the count
over r. -/
lemma countSub_append_no_cross {pat l r : Line}
    (h : ∀ t, t ≠ [] → t <:+ l → ¬ pat <+: (t ++ r)) :
    countSub pat (l ++ r) = countSub pat r := by
  induction l with
  | nil => simp
  | cons x l ih =>
    have h1 : pat.isPrefixOf ((x :: l) ++ r) = false := by
      by_contra hc
      exact h (x :: l) (by simp) (List.suffix_refl _)
        (by simpa using List.isPrefixOf_iff_prefix.mp (isPrefixOf_eq_true hc))
    have h2 : countSub pat ((x :: l) ++ r)
        = (if pat.isPrefixOf ((x :: l) ++ r) then 1 else 0) + countSub pat (l ++ r) := by
      simp [countSub]
    rw [h2, h1]
    simp only [if_false, Bool.false_eq_true, Nat.zero_add]
    exact ih (fun t ht hsuf => h t ht (List.suffix_cons_iff.mpr (Or.inr hsuf)))

lemma containsSub_of_suffix {l t pat : Line} (hsuf : t <:+ l)
    (hpre : pat <+: t) : containsSub l pat = true := by
  induction l with
  | nil =>
    have ht : t = [] := List.suffix_nil.mp hsuf
    subst ht
    have hp : pat = [] := List.prefix_nil.mp hpre
    subst hp
    rfl
  | cons x xs ih =>
    rcases List.suffix_cons_iff.mp hsuf with rfl | hsuf'
    · have h1 : pat.isPrefixOf (x :: xs) = true := List.isPrefixOf_iff_prefix.mpr hpre
      simp [containsSub, h1]
    · simp [containsSub, ih hsuf']

lemma containsSub_append_left {a t pat : Line}
    (h : containsSub t pat = true) : containsSub (a ++ t) pat = true := by
  induction a with
  | nil => simpa using h
  | cons x a ih => simp [containsSub, ih]

lemma prefix_of_append_of_le {p t r : Line} (h : p <+: t ++ r)
    (hl : p.length ≤ t.length) : p <+: t := by
  have h1 : p = (t ++ r).take p.length := List.prefix_iff_eq_take.mp h
  rw [List.take_append_of_le_length hl] at h1
  exact h1 ▸ List.take_prefix _ _

/-- No occurrence of due:d can start strictly inside l when l does not
contain the substring due: and the continuation is the appended field. -/
lemma no_due_cross {l d sep : Line}
    (hl : containsSub l ("due:".toList) = false) (hsep : sep = [] ∨ sep = [' ']) :
    ∀ t, t ≠ [] → t <:+ l →
      ¬ ("due:".toList ++ d) <+: (t ++ (sep ++ ("due:".toList ++ d))) := by
  intro t ht hsuf hpre
  have hdue : ("due:".toList) <+: (t ++ (sep ++ ("due:".toList ++ d))) :=
    List.IsPrefix.trans ⟨d, rfl⟩ hpre
  by_cases h4 : 4 ≤ t.length
  · have hin : ("due:".toList) <+: t :=
      prefix_of_append_of_le hdue (by simpa [due_toList] using h4)
    rw [containsSub_of_suffix hsuf hin] at hl
    exact absurd hl (by simp)
  · obtain ⟨s, hs⟩ := hdue
    rcases t with _ | ⟨a1, _ | ⟨a2, _ | ⟨a3, _ | ⟨a4, t'⟩⟩⟩⟩
    · exact ht rfl
    · rcases hsep with rfl | rfl <;>
        simp only [due_toList, List.cons_append, List.nil_append] at hs
      · injection hs with e1 hs; injection hs with e2 hs
        exact absurd e2 (by decide)
      · injection hs with e1 hs; injection hs with e2 hs
        exact absurd e2 (by decide)
    · rcases hsep with rfl | rfl <;>
        simp only [due_toList, List.cons_append, List.nil_append] at hs
      · injection hs with e1 hs; injection hs with e2 hs; injection hs with e3 hs
        exact absurd e3 (by decide)
      · injection hs with e1 hs; injection hs with e2 hs; injection hs with e3 hs
        exact absurd e3 (by decide)
    · rcases hsep with rfl | rfl <;>
        simp only [due_toList, List.cons_append, List.nil_append] at hs
      · injection hs with e1 hs; injection hs with e2 hs; injection hs with e3 hs
        injection hs with e4 hs
        exact absurd e4 (by decide)
      · injection hs with e1 hs; injection hs with e2 hs; injection hs with e3 hs
        injection hs with e4 hs
        exact absurd e4 (by decide)
    · exact h4 (by simp)

lemma dateShape_length {X : Line} (h : dateShape X = true) : X.length = 10 := by
  unfold dateShape at h
  split at h
  · simp_all
  · simp at h

/-- Substituting the leftmost due:date match: with no match starting inside
a and a date-shaped X right after a's due: marker, replaceDue rewrites
exactly that date. -/
lemma replaceDue_first {X : Line} (hX : dateShape X = true) :
    ∀ a b d : Line,
      noEarlierMatch a ('d' :: 'u' :: 'e' :: ':' :: (X ++ b)) = true →
      replaceDue d (a ++ 'd' :: 'u' :: 'e' :: ':' :: (X ++ b))
        = a ++ 'd' :: 'u' :: 'e' :: ':' :: (d ++ b) := by
  intro a
  induction a with
  | nil =>
    intro b d _
    have hx10 : X.length = 10 := dateShape_length hX
    have hp : "due:".toList.isPrefixOf ('d' :: 'u' :: 'e' :: ':' :: (X ++ b)) = true :=
      List.isPrefixOf_iff_prefix.mpr ⟨X ++ b, by simp [due_toList]⟩
    have htake : (X ++ b).take 10 = X := by
      rw [← hx10, List.take_left]
    have hh : dueReplHere ('d' :: 'u' :: 'e' :: ':' :: (X ++ b)) = true := by
      simp [dueReplHere, hp, htake, hX]
    have hd14 : (('d' :: 'u' :: 'e' :: ':' :: (X ++ b)) : Line).drop 14 = b := by
      have h1 : (('d' :: 'u' :: 'e' :: ':' :: (X ++ b)) : Line).drop 14 = (X ++ b).drop 10 := rfl
      rw [h1, ← hx10, List.drop_left]
    rw [List.nil_append, replaceDue, if_pos (by rw [hh]), hd14]
    simp [due_toList]
  | cons c a ih =>
    intro b d hfirst
    simp only [noEarlierMatch, Bool.and_eq_true, Bool.not_eq_true'] at hfirst
    rw [List.cons_append, replaceDue, if_neg (by rw [hfirst.1]; simp),
      ih b d hfirst.2, List.cons_append]

/-- One toggle application on a canonical dash-bulleted task line advances
the status character and preserves everything else, for both variants. -/
lemma toggle_step (ind rest : Line) (c : Char) (hind : ind.all isWs = true)
    (hc : c = ' ' ∨ c = '/' ∨ c = 'x') :
    toggleTaskStatus (ind ++ '-' :: ' ' :: '[' :: c :: ']' :: rest)
        = ind ++ '-' :: ' ' :: '[' :: nextStatus c :: ']' :: rest
      ∧ toggleTaskStatusAce (ind ++ '-' :: ' ' :: '[' :: c :: ']' :: rest)
        = ind ++ '-' :: ' ' :: '[' :: nextStatus c :: ']' :: rest := by
  have hc' : isStatusChar c = true := by rcases hc with rfl | rfl | rfl <;> rfl
  have hw' : ([' '] : Line).all isWs = true := rfl
  have hsplit : taskSplit (ind ++ '-' :: ' ' :: '[' :: c :: ']' :: rest)
      = some ⟨ind, '-', [' '], c, rest.takeWhile isWs, rest.dropWhile isWs⟩ := by
    simpa using
      taskSplit_build rest hind (show isBullet '-' = true from rfl) hw' hc'
  constructor
  · simp [toggleTaskStatus, hsplit, List.takeWhile_append_dropWhile]
  · have hdash : isWs '-' = false := rfl
    have e1 : (ind ++ '-' :: ' ' :: '[' :: c :: ']' :: rest).dropWhile isWs
        = '-' :: ' ' :: '[' :: c :: ']' :: rest :=
      dropWhile_ws_append _ hind hdash
    have e2 : (ind ++ '-' :: ' ' :: '[' :: c :: ']' :: rest).takeWhile isWs
        = ind := takeWhile_ws_append _ hind hdash
    have w1 : isWs ' ' = true := rfl
    have w2 : isWs '[' = false := rfl
    have w3 : isWs ']' = false := rfl
    have w4 : isWs '/' = false := rfl
    have w5 : isWs 'x' = false := rfl
    rcases hc with rfl | rfl | rfl <;>
      simp [toggleTaskStatusAce, aceBracketEmpty, aceBracketChar, e1, e2,
        List.dropWhile_cons, w1, w2, w3, w4, w5, nextStatus]

end Helpers

/-- C1: parsing the line - [ ] buy milk +grocery due:2025-01-20 (a) does
not strip the + from the tag nor the due: prefix from the date: the task's
tag matches are "+grocery" (not the bare "grocery") and its due field is
"due:2025-01-20" (not "2025-01-20"), refuting the claimed field values. -/
theorem c1_counterexample :
    ((parseDocument "- [ ] buy milk +grocery due:2025-01-20 (a)".toList).map
          TaskRec.tags = ["+grocery".toList]
        ∧ (parseDocument "- [ ] buy milk +grocery due:2025-01-20 (a)".toList).map
          TaskRec.due = [some ("due:2025-01-20".toList)])
      ∧ ¬ ((parseDocument "- [ ] buy milk +grocery due:2025-01-20 (a)".toList).map
            TaskRec.tags = ["grocery".toList]
          ∧ (parseDocument "- [ ] buy milk +grocery due:2025-01-20 (a)".toList).map
            TaskRec.due = [some ("2025-01-20".toList)]) := by
  decide

/-- C1 (amended): parsing the single task line
- [ ] buy milk +grocery due:2025-01-20 (a) yields exactly one task with
status backlog (pending), the raw tag match "+grocery" (the + is kept and
the matches are joined into one string), due "due:2025-01-20" (the due:
prefix is kept), no start date, and priority a. -/
theorem c1_literal_scenario :
    parseDocument "- [ ] buy milk +grocery due:2025-01-20 (a)".toList =
      [{ lineNumber := 1
         status := "backlog".toList
         text := "buy milk +grocery due:2025-01-20 (a)".toList
         heading := none
         color := "#1976D2".toList
         tags := "+grocery".toList
         due := some ("due:2025-01-20".toList)
         start := none
         priority := some 'a' }] := by
  decide

/-- C2: the claim fails as stated: the line * [ ] a matches the task
grammar, yet the Ace variant of toggleTaskStatus rewrites it wholesale into
a new pending dash task (altering the bullet and body, not just the bracket
character), and three applications do not restore the line. -/
theorem c2_counterexample :
    (taskSplit "* [ ] a".toList).isSome = true
      ∧ toggleTaskStatusAce "* [ ] a".toList = "- [ ] * [ ] a".toList
      ∧ toggleTaskStatusAce (toggleTaskStatusAce
          (toggleTaskStatusAce "* [ ] a".toList)) = "- [x] * [ ] a".toList
      ∧ toggleTaskStatusAce "* [ ] a".toList ≠ "* [ ] a".toList := by
  decide

/-- C2 (amended): on every task-grammar line whose bullet is -, both
toggleTaskStatus variants advance the bracket status character along the
cycle space, /, x and preserve indentation, bullet and body byte-for-byte,
and applying either variant three times restores the original line. -/
theorem c2_toggle_three_cycle (ind rest : Line) (c : Char)
    (hind : ind.all isWs = true) (hc : c = ' ' ∨ c = '/' ∨ c = 'x') :
    toggleTaskStatus (ind ++ '-' :: ' ' :: '[' :: c :: ']' :: rest)
        = ind ++ '-' :: ' ' :: '[' :: nextStatus c :: ']' :: rest
      ∧ toggleTaskStatusAce (ind ++ '-' :: ' ' :: '[' :: c :: ']' :: rest)
        = ind ++ '-' :: ' ' :: '[' :: nextStatus c :: ']' :: rest
      ∧ toggleTaskStatus (toggleTaskStatus (toggleTaskStatus
          (ind ++ '-' :: ' ' :: '[' :: c :: ']' :: rest)))
        = ind ++ '-' :: ' ' :: '[' :: c :: ']' :: rest
      ∧ toggleTaskStatusAce (toggleTaskStatusAce (toggleTaskStatusAce
          (ind ++ '-' :: ' ' :: '[' :: c :: ']' :: rest)))
        = ind ++ '-' :: ' ' :: '[' :: c :: ']' :: rest := by
  have hc1 : nextStatus c = ' ' ∨ nextStatus c = '/' ∨ nextStatus c = 'x' := by
    rcases hc with rfl | rfl | rfl <;> simp [nextStatus]
  have hc2 : nextStatus (nextStatus c) = ' ' ∨ nextStatus (nextStatus c) = '/'
      ∨ nextStatus (nextStatus c) = 'x' := by
    rcases hc with rfl | rfl | rfl <;> simp [nextStatus]
  have h3 : nextStatus (nextStatus (nextStatus c)) = c := by
    rcases hc with rfl | rfl | rfl <;> rfl
  obtain ⟨s1m, s1a⟩ := toggle_step ind rest c hind hc
  obtain ⟨s2m, s2a⟩ := toggle_step ind rest (nextStatus c) hind hc1
  obtain ⟨s3m, s3a⟩ := toggle_step ind rest (nextStatus (nextStatus c)) hind hc2
  refine ⟨s1m, s1a, ?_, ?_⟩
  · rw [s1m, s2m, s3m, h3]
  · rw [s1a, s2a, s3a, h3]

/-- Witness for c2_toggle_three_cycle at a concrete pending task line. -/
theorem c2_witness :
    toggleTaskStatus (([] : Line) ++ '-' :: ' ' :: '[' :: ' ' :: ']' :: (' ' :: 'a' :: []))
        = ([] : Line) ++ '-' :: ' ' :: '[' :: nextStatus ' ' :: ']' :: (' ' :: 'a' :: [])
      ∧ toggleTaskStatusAce (([] : Line) ++ '-' :: ' ' :: '[' :: ' ' :: ']' :: (' ' :: 'a' :: []))
        = ([] : Line) ++ '-' :: ' ' :: '[' :: nextStatus ' ' :: ']' :: (' ' :: 'a' :: [])
      ∧ toggleTaskStatus (toggleTaskStatus (toggleTaskStatus
          (([] : Line) ++ '-' :: ' ' :: '[' :: ' ' :: ']' :: (' ' :: 'a' :: []))))
        = ([] : Line) ++ '-' :: ' ' :: '[' :: ' ' :: ']' :: (' ' :: 'a' :: [])
      ∧ toggleTaskStatusAce (toggleTaskStatusAce (toggleTaskStatusAce
          (([] : Line) ++ '-' :: ' ' :: '[' :: ' ' :: ']' :: (' ' :: 'a' :: []))))
        = ([] : Line) ++ '-' :: ' ' :: '[' :: ' ' :: ']' :: (' ' :: 'a' :: []) :=
  c2_toggle_three_cycle [] (' ' :: 'a' :: []) ' ' rfl (Or.inl rfl)

/-- C5: heading/color inheritance on the five-line document: t1 sits under
heading B with explicit color #FF0000; heading C carries no color, so t2
gets heading C but keeps the inherited color #FF0000. -/
theorem c5_heading_inheritance :
    (parseDocument "# A\n## B #FF0000\n- [ ] t1\n# C\n- [ ] t2".toList).map
        (fun t => (t.lineNumber, t.text, t.heading, t.color)) =
      [(3, "t1".toList, some ("B".toList), "#FF0000".toList),
       (5, "t2".toList, some ("C".toList), "#FF0000".toList)] := by
  decide

/-- C8: the claim fails as stated: a bullet immediately followed by the
bracket, with no intervening whitespace, is accepted by the task regex
(its \s* is zero-or-more), so -[ ] foo is parsed as a task. -/
theorem c8_counterexample :
    (parseTasks ["-[ ] foo".toList]).map (fun t => (t.lineNumber, t.text))
      = [(1, "foo".toList)] := by
  decide

/-- C8 (amended): a line of a document is recognised as a task (a task with
its 1-based line number is emitted by parseTasks) exactly when it matches
the relaxed grammar with optional whitespace between the bullet and the
bracket: optional leading whitespace, one bullet from -, *, +, zero or more
whitespace characters, then the bracketed status character. -/
theorem c8_task_recognition (ls : List Line) (i : Nat) (line : Line)
    (h : ls.get? i = some line) :
    (∃ t, t ∈ parseTasks ls ∧ t.lineNumber = i + 1) ↔ SpecTaskLine line := by
  constructor
  · rintro ⟨t, hmem, hn⟩
    obtain ⟨j, line', p, hj, hn', hg, hts, _⟩ := parseAux_mem hmem
    have hji : j = i := by omega
    subst hji
    rw [h] at hg
    injection hg with hg
    subst hg
    obtain ⟨hl, hi, hb, hw, hc, _⟩ := taskSplit_some hts
    exact ⟨p.ind, p.bullet, p.ws2, p.statusCh, p.ws3 ++ p.body, hi,
      isBullet_elim hb, hw, isStatusChar_elim hc,
      by simpa [TaskParts.line, List.append_assoc] using hl⟩
  · rintro ⟨ind, b, w2, c, rest, hi, hb, hw, hc, rfl⟩
    have hb' : isBullet b = true := by rcases hb with rfl | rfl | rfl <;> rfl
    have hc' : isStatusChar c = true := by rcases hc with rfl | rfl | rfl <;> rfl
    obtain ⟨t, hmem, hn⟩ :=
      parseAux_emit h (taskSplit_build rest hi hb' hw hc') 0 none defaultColor
    exact ⟨t, hmem, by omega⟩

/-- Witness for c8_task_recognition at the no-space line -[ ] foo. -/
theorem c8_witness :
    (∃ t, t ∈ parseTasks ["-[ ] foo".toList] ∧ t.lineNumber = 0 + 1)
      ↔ SpecTaskLine ("-[ ] foo".toList) :=
  c8_task_recognition ["-[ ] foo".toList] 0 ("-[ ] foo".toList) rfl

/-- C9: a heading with exactly three hashes and a valid trailing six-hex
color is recognised with its title and color; four hashes are not a heading
(the line classifies as Other) and leave both trackers untouched, as the
task following each shows. -/
theorem c9_heading_boundary :
    headMatch "### Tasks #AABBCC".toList
        = some (3, "Tasks".toList, some ("#AABBCC".toList))
      ∧ headMatch "#### Tasks #AABBCC".toList = none
      ∧ (parseTasks ["### Tasks #AABBCC".toList, "- [ ] t".toList]).map
          (fun t => (t.heading, t.color))
        = [(some ("Tasks".toList), "#AABBCC".toList)]
      ∧ (parseTasks ["#### Tasks #AABBCC".toList, "- [ ] t".toList]).map
          (fun t => (t.heading, t.color))
        = [(none, "#1976D2".toList)] := by
  decide

/-- C6: for every document and every task parsed from it, the Kanban
writeback that targets the task's current status leaves the document's line
list unchanged: the bracket character is rewritten to itself, so the
patched line equals the original and the point update is the identity. -/
theorem c6_writeback_idempotent (ls : List Line) (t : TaskRec)
    (h : t ∈ parseTasks ls) :
    updateTaskStatusAtLine ls t.lineNumber t.status = ls := by
  obtain ⟨j, line, p, hj, hn, hg, hts, hst, _⟩ := parseAux_mem h
  have hj' : t.lineNumber - 1 = j := by omega
  have hg' : ls.get? (t.lineNumber - 1) = some line := by rw [hj']; exact hg
  have hchar : charForStatus t.status = p.statusCh := by
    rw [hst]
    rcases isStatusChar_elim (taskSplit_some hts).2.2.2.2.1 with h1 | h1 | h1 <;>
      rw [h1] <;> decide
  have hset : setStatusChar line (charForStatus t.status) = line := by
    rw [hchar]
    simp only [setStatusChar, hts]
    exact ((taskSplit_some hts).1).symm
  simp only [updateTaskStatusAtLine, hg', hset]
  exact set_get_self hg'

/-- Witness for c6_writeback_idempotent on a one-line document. -/
theorem c6_witness :
    updateTaskStatusAtLine ["- [ ] a".toList] 1 ("backlog".toList)
      = ["- [ ] a".toList] :=
  c6_writeback_idempotent ["- [ ] a".toList]
    { lineNumber := 1
      status := "backlog".toList
      text := "a".toList
      heading := none
      color := "#1976D2".toList
      tags := []
      due := none
      start := none
      priority := none }
    (by decide)

/-- C7: dropping a pending task onto the done column rewrites exactly that
task's line, and on that line exactly the bracket character (from space to
x); every other line of the document is untouched. -/
theorem c7_done_drop_frame (ls : List Line) (t : TaskRec)
    (h : t ∈ parseTasks ls) (hp : t.status = "backlog".toList) :
    ∃ a b, ls.get? (t.lineNumber - 1) = some (a ++ ' ' :: b)
      ∧ updateTaskStatusAtLine ls t.lineNumber ("done".toList)
          = ls.set (t.lineNumber - 1) (a ++ 'x' :: b)
      ∧ ∀ k, k ≠ t.lineNumber - 1 →
          (updateTaskStatusAtLine ls t.lineNumber ("done".toList)).get? k
            = ls.get? k := by
  obtain ⟨j, line, p, hj, hn, hg, hts, hst, _⟩ := parseAux_mem h
  have hj' : t.lineNumber - 1 = j := by omega
  have hg' : ls.get? (t.lineNumber - 1) = some line := by rw [hj']; exact hg
  have hsc : p.statusCh = ' ' := by
    rcases isStatusChar_elim (taskSplit_some hts).2.2.2.2.1 with h1 | h1 | h1
    · exact h1
    · rw [hst, h1] at hp; exact absurd hp (by decide)
    · rw [hst, h1] at hp; exact absurd hp (by decide)
  have hline : line = (p.ind ++ p.bullet :: p.ws2 ++ ['[']) ++ ' ' :: (']' :: p.ws3 ++ p.body) := by
    rw [(taskSplit_some hts).1]
    simp [TaskParts.line, hsc]
  have hchar : charForStatus ("done".toList) = 'x' := by decide
  have hnew : setStatusChar line (charForStatus ("done".toList))
      = (p.ind ++ p.bullet :: p.ws2 ++ ['[']) ++ 'x' :: (']' :: p.ws3 ++ p.body) := by
    rw [hchar]
    simp only [setStatusChar, hts]
    simp
  refine ⟨p.ind ++ p.bullet :: p.ws2 ++ ['['], ']' :: p.ws3 ++ p.body,
    by rw [← hline]; exact hg', ?_, ?_⟩
  · simp only [updateTaskStatusAtLine, hg', hnew]
  · intro k hk
    simp only [updateTaskStatusAtLine, hg']
    exact List.get?_set_ne _ _ (fun e => hk e.symm)

/-- Witness for c7_done_drop_frame on a two-line document. -/
theorem c7_witness :
    ∃ a b, (["- [ ] a".toList, "other".toList] : List Line).get? (1 - 1)
        = some (a ++ ' ' :: b)
      ∧ updateTaskStatusAtLine ["- [ ] a".toList, "other".toList] 1 ("done".toList)
          = (["- [ ] a".toList, "other".toList] : List Line).set (1 - 1) (a ++ 'x' :: b)
      ∧ ∀ k, k ≠ 1 - 1 →
          (updateTaskStatusAtLine ["- [ ] a".toList, "other".toList] 1
              ("done".toList)).get? k
            = (["- [ ] a".toList, "other".toList] : List Line).get? k :=
  c7_done_drop_frame ["- [ ] a".toList, "other".toList]
    { lineNumber := 1
      status := "backlog".toList
      text := "a".toList
      heading := none
      color := "#1976D2".toList
      tags := []
      due := none
      start := none
      priority := none }
    (by decide) rfl

/-- C10: parseTasks is total, maps the empty document to the empty task
list, emits tasks in document order with strictly increasing 1-based line
numbers, and each line number lies between 1 and the number of lines and
names exactly the task-regex line the task's status and body came from. -/
theorem c10_parse_invariants (ls : List Line) :
    parseTasks ([] : List Line) = []
      ∧ (parseTasks ls).Pairwise (fun a b => a.lineNumber < b.lineNumber)
      ∧ ∀ t ∈ parseTasks ls, 1 ≤ t.lineNumber ∧ t.lineNumber ≤ ls.length
          ∧ ∃ line p, ls.get? (t.lineNumber - 1) = some line
              ∧ taskSplit line = some p ∧ t.status = statusName p.statusCh
              ∧ t.text = p.body := by
  refine ⟨rfl, parseAux_pairwise .., ?_⟩
  intro t ht
  obtain ⟨j, line, p, hj, hn, hg, hts, hst, htx⟩ := parseAux_mem ht
  have hj' : t.lineNumber - 1 = j := by omega
  exact ⟨by omega, by omega, line, p, by rw [hj']; exact hg, hts, hst, htx⟩

/-- Witness for c10_parse_invariants, instantiating the per-task clause on a
one-line document. -/
theorem c10_witness :
    1 ≤ (1 : Nat) ∧ (1 : Nat) ≤ ([("- [ ] a".toList : Line)] : List Line).length
      ∧ ∃ line p, ([("- [ ] a".toList : Line)] : List Line).get? (1 - 1) = some line
          ∧ taskSplit line = some p
          ∧ ("backlog".toList : Line) = statusName p.statusCh
          ∧ ("a".toList : Line) = p.body :=
  (c10_parse_invariants ["- [ ] a".toList]).2.2
    { lineNumber := 1
      status := "backlog".toList
      text := "a".toList
      heading := none
      color := "#1976D2".toList
      tags := []
      due := none
      start := none
      priority := none }
    (by decide)

/-- C3: the claim fails as stated, twice.  A line ending in a tab ends in
whitespace, yet addTodaysDate still inserts a separating space (the code
tests endsWith(' '), the space character only).  And a line containing the
substring due: with no date after it contains no due field, yet the code
takes the replace branch (it tests includes('due:')) and returns the line
unchanged, with zero occurrences of due:d. -/
theorem c3_counterexample :
    (isWs '\t' = true
        ∧ addTodaysDate "a\t".toList ("2025-01-20".toList)
            = "a\t due:2025-01-20".toList
        ∧ addTodaysDate "a\t".toList ("2025-01-20".toList)
            ≠ "a\t".toList ++ "due:".toList ++ "2025-01-20".toList)
      ∧ (datedFieldScan "due:".toList false ("x due:yz".toList) = none
        ∧ addTodaysDate "x due:yz".toList ("2025-01-20".toList)
            = "x due:yz".toList
        ∧ countSub ("due:".toList ++ "2025-01-20".toList)
            (addTodaysDate "x due:yz".toList ("2025-01-20".toList)) = 0) := by
  decide

/-- C3 (amended): for every line that does not contain the substring due:
at all, addTodaysDate appends due:d at the end of the line; the result
contains exactly one occurrence of due:d, the original line is a prefix of
the result, and the single separating space is omitted exactly when the
line already ends in the space character (a line ending in any other
whitespace character, such as a tab, still receives one). -/
theorem c3_append_due (l d : Line)
    (h : containsSub l ("due:".toList) = false) :
    addTodaysDate l d
        = l ++ (if endsWithSpace l then [] else [' ']) ++ "due:".toList ++ d
      ∧ l <+: addTodaysDate l d
      ∧ countSub ("due:".toList ++ d) (addTodaysDate l d) = 1 := by
  have he : addTodaysDate l d
      = l ++ (if endsWithSpace l then ([] : Line) else [' ']) ++ "due:".toList ++ d := by
    unfold addTodaysDate
    rw [if_neg (by rw [h]; simp)]
  have hassoc : l ++ (if endsWithSpace l then ([] : Line) else [' ']) ++ "due:".toList ++ d
      = l ++ ((if endsWithSpace l then ([] : Line) else [' ']) ++ ("due:".toList ++ d)) := by
    simp [List.append_assoc]
  refine ⟨he, ?_, ?_⟩
  · rw [he, hassoc]
    exact List.prefix_append _ _
  · rw [he, hassoc]
    have hsep : (if endsWithSpace l then ([] : Line) else [' ']) = []
        ∨ (if endsWithSpace l then ([] : Line) else [' ']) = [' '] := by
      split <;> simp
    rw [countSub_append_no_cross (no_due_cross h hsep)]
    rcases hsep with hsep | hsep
    · rw [hsep, List.nil_append]
      exact countSub_pat_self (by simp [due_toList])
    · rw [hsep]
      have h0 : ("due:".toList ++ d).isPrefixOf (' ' :: ("due:".toList ++ d)) = false := by
        simp [due_toList, List.isPrefixOf]
      have h1 : ([' '] : Line) ++ ("due:".toList ++ d) = ' ' :: ("due:".toList ++ d) := rfl
      have h2 : countSub ("due:".toList ++ d) (' ' :: ("due:".toList ++ d))
          = (if ("due:".toList ++ d).isPrefixOf (' ' :: ("due:".toList ++ d)) then 1 else 0)
            + countSub ("due:".toList ++ d) ("due:".toList ++ d) := rfl
      rw [h1, h2]
      simp only [h0, Bool.false_eq_true, if_false, Nat.zero_add]
      exact countSub_pat_self (by simp [due_toList])

/-- Witness for c3_append_due on a concrete task line without a due date. -/
theorem c3_witness :
    containsSub ("- [ ] a".toList) ("due:".toList) = false
      ∧ (addTodaysDate "- [ ] a".toList ("2025-01-20".toList)
            = "- [ ] a".toList
              ++ (if endsWithSpace "- [ ] a".toList then [] else [' '])
              ++ "due:".toList ++ "2025-01-20".toList
        ∧ "- [ ] a".toList <+: addTodaysDate "- [ ] a".toList ("2025-01-20".toList)
        ∧ countSub ("due:".toList ++ "2025-01-20".toList)
            (addTodaysDate "- [ ] a".toList ("2025-01-20".toList)) = 1) :=
  ⟨by decide, c3_append_due ("- [ ] a".toList) ("2025-01-20".toList) (by decide)⟩

/-- C4: on a line already containing due:X with X a date, where the
occurrence after a is the leftmost match of due:date, addTodaysDate
replaces exactly that date X by d in place and leaves every other byte of
the line unchanged. -/
theorem c4_replace_first_due (a X b d : Line) (hX : dateShape X = true)
    (hfirst : noEarlierMatch a ("due:".toList ++ X ++ b) = true) :
    addTodaysDate (a ++ "due:".toList ++ X ++ b) d
      = a ++ "due:".toList ++ d ++ b := by
  have h1 : containsSub ("due:".toList ++ (X ++ b)) ("due:".toList) = true :=
    containsSub_of_suffix (List.suffix_refl _) (List.prefix_append _ _)
  have h2 : containsSub (a ++ ("due:".toList ++ (X ++ b))) ("due:".toList) = true :=
    containsSub_append_left h1
  have hcontains : containsSub (a ++ "due:".toList ++ X ++ b) ("due:".toList) = true := by
    simpa [List.append_assoc] using h2
  have hfirst' : noEarlierMatch a ('d' :: 'u' :: 'e' :: ':' :: (X ++ b)) = true := by
    simpa [due_toList, List.append_assoc] using hfirst
  have hrepl := replaceDue_first hX a b d hfirst'
  have hgoal : addTodaysDate (a ++ "due:".toList ++ X ++ b) d
      = replaceDue d (a ++ "due:".toList ++ X ++ b) := by
    unfold addTodaysDate
    rw [if_pos hcontains]
  rw [hgoal]
  have hshape : a ++ "due:".toList ++ X ++ b
      = a ++ 'd' :: 'u' :: 'e' :: ':' :: (X ++ b) := by
    simp [due_toList, List.append_assoc]
  rw [hshape, hrepl]
  simp [due_toList, List.append_assoc]

/-- Witness for c4_replace_first_due on a concrete dated task line. -/
theorem c4_witness :
    dateShape ("2024-12-31".toList) = true
      ∧ noEarlierMatch ("- [ ] a ".toList)
          ("due:".toList ++ "2024-12-31".toList ++ " x".toList) = true
      ∧ addTodaysDate
            ("- [ ] a ".toList ++ "due:".toList ++ "2024-12-31".toList ++ " x".toList)
            ("2025-01-20".toList)
          = "- [ ] a ".toList ++ "due:".toList ++ "2025-01-20".toList ++ " x".toList :=
  ⟨by decide, by decide,
    c4_replace_first_due ("- [ ] a ".toList) ("2024-12-31".toList) (" x".toList)
      ("2025-01-20".toList) (by decide) (by decide)⟩

end TodoAttack
